import Mathlib

set_option maxRecDepth 4000

deriving instance DecidableEq for Except

/-!
Shallow embedding of the descriptor-table decoding engine of the
interrupt-modules repository (src/mp/mp.c, src/ioapic/ioapic.c,
src/idt/idt.c).  Physical memory is modelled as a function from byte
address to stored byte, a device register bank as a function from latched
index to 32-bit data value.  Machine integers are Nat with explicit
`% 2^w` at the points where the C types truncate.
-/

/-- A byte of physical memory: `mem` maps a physical address to the stored
byte, read through an 8-bit data path (`uint8_t *`), hence `% 256`. -/
def byteAt (mem : Nat → Nat) (a : Nat) : Nat := mem a % 256

/-- Little-endian 32-bit load, the C code's `*(uint32_t *)p` on x86. -/
def read32 (mem : Nat → Nat) (a : Nat) : Nat :=
  byteAt mem a + 2^8 * byteAt mem (a+1) + 2^16 * byteAt mem (a+2) + 2^24 * byteAt mem (a+3)

/-- Little-endian 16-bit load (`*(uint16_t *)p`). -/
def read16 (mem : Nat → Nat) (a : Nat) : Nat :=
  byteAt mem a + 2^8 * byteAt mem (a+1)

/-! ## mp.c: constants (the `#define`s at the top of the file) -/

def MPFP_SIGNATURE : Nat := 0x5f504d5f   -- "_MP_"
def MPCT_SIGNATURE : Nat := 0x504d4350   -- "PCMP"
def MPFP_SIGNATURE_BYTES : Nat := 4
def MPCT_SIGNATURE_BYTES : Nat := 4
def MPCT_ENTRY_TYPE_PROCESSOR : Nat := 0
def MPCT_ENTRY_BYTES_PROCESSOR : Nat := 20
def MPCT_ENTRY_BYTES_DEFAULT : Nat := 8
def MPFP_STRUCTURE_BYTES : Nat := 16
def MPCT_HEADER_BYTES : Nat := 44

/-- Error kinds of the engine.  In the C code every failure returns
`-ENODEV`; the kinds are distinguished by the failure site (each site
logs a distinct message), matching the spec's error taxonomy. -/
inductive MPErr where
  | NotFound
  | InvalidSignature
deriving DecidableEq

/-- Result of `mp_setup`: the globals `mpfp`, `mpct` (as physical
addresses; `phys_to_virt` is the identity in this model) and
`base_mpct_bytes`. -/
structure MPSetup where
  mpfp : Nat
  mpct : Nat
  base_mpct_bytes : Nat
deriving DecidableEq

/-- The signature-scan loop of `mp_setup`:
`for (phys_addr = 0xF0000; phys_addr <= 0xFFFFF; phys_addr += 16)`.
`n` counts the remaining candidates; the full loop visits
`(0x100000 - 0xF0000) / 16 = 4096` of them.  Returns the address of the
first candidate whose 32-bit load equals the "_MP_" signature. -/
def mpScanAux (mem : Nat → Nat) : Nat → Nat → Option Nat
  | 0, _ => none
  | n+1, a => if read32 mem a = MPFP_SIGNATURE then some a else mpScanAux mem n (a + 16)

/-- The whole scan of the BIOS ROM window, 0xF0000 .. 0xFFFFF step 16. -/
def mpScan (mem : Nat → Nat) : Option Nat := mpScanAux mem 4096 0xF0000

/-- `mp_setup` from mp.c: scan for the MP Floating Pointer structure,
follow the 4-byte pointer at its offset 4 to the MP Configuration Table,
check the "PCMP" signature, and read the base-table size.  The C global
`base_mpct_bytes` is `uint16_t` while the load is `*(uint32_t *)`, hence
the `% 2^16` truncation of the assignment. -/
def mp_setup (mem : Nat → Nat) : Except MPErr MPSetup :=
  match mpScan mem with
  | none => .error .NotFound
  | some fp =>
    let ct := read32 mem (fp + MPFP_SIGNATURE_BYTES)
    if read32 mem ct ≠ MPCT_SIGNATURE then .error .InvalidSignature
    else .ok ⟨fp, ct, read32 mem (ct + MPCT_SIGNATURE_BYTES) % 2^16⟩

/-- `mp_init` from mp.c: on `mp_setup` failure the error is returned and
the /proc file is never created, so nothing is ever rendered. -/
def mp_init (mem : Nat → Nat) : Except MPErr Unit :=
  match mp_setup mem with
  | .error e => .error e
  | .ok _ => .ok ()

/-- One decoded entry of the Base MP Configuration Table as emitted by the
third loop of `mp_show`: its start offset (from the table base, as the C
`pos`) and the raw bytes printed for it. -/
structure MPEntry where
  pos : Nat
  bytes : List Nat
deriving DecidableEq

/-- Entry stride selection of `mp_show`:
`(mpct[pos] == MPCT_ENTRY_TYPE_PROCESSOR) ? 20 : 8`. -/
def mpStrideOf (b : Nat) : Nat :=
  if b = MPCT_ENTRY_TYPE_PROCESSOR then MPCT_ENTRY_BYTES_PROCESSOR else MPCT_ENTRY_BYTES_DEFAULT

/-- The raw bytes printed for one entry: `mpct[pos + byte]` for
`byte = 0 .. entry_bytes - 1`. -/
def mpEntryBytes (mem : Nat → Nat) (pos len : Nat) : List Nat :=
  (List.range len).map fun j => byteAt mem (pos + j)

/-- The variable-stride walk of `mp_show`'s base-table loop, starting at
`pos` while `pos < size`.  The loop needs no fuel in C; here `fuel` bounds
the iteration count, and since every iteration advances `pos` by at least
8, `fuel = size` iterations always suffice to reach `pos ≥ size`. -/
def mpWalkAux (mem : Nat → Nat) (size : Nat) : Nat → Nat → List MPEntry
  | 0, _ => []
  | fuel+1, pos =>
    if pos < size then
      ⟨pos, mpEntryBytes mem pos (mpStrideOf (byteAt mem pos))⟩ ::
        mpWalkAux mem size fuel (pos + mpStrideOf (byteAt mem pos))
    else []

/-- The Base MP Configuration Table walk of `mp_show`:
`for (pos = MPCT_HEADER_BYTES; pos < base_mpct_bytes; pos += entry_bytes)`.
`mem` is the table memory indexed from the table base (the C `mpct`),
`size` is `base_mpct_bytes`. -/
def mp_show_base_entries (mem : Nat → Nat) (size : Nat) : List MPEntry :=
  mpWalkAux mem size size MPCT_HEADER_BYTES

/-! ## ioapic.c -/

def IOAPIC_REG_ID : Nat := 0x00
def IOAPIC_REG_VER : Nat := 0x01
def IOAPIC_REG_ID_SHIFT_ID : Nat := 24
def IOAPIC_REG_ID_MASK_ID : Nat := 0x0F000000
def IOAPIC_REG_VER_SHIFT_VER : Nat := 0
def IOAPIC_REG_VER_MASK_VER : Nat := 0x000000FF
def IOAPIC_REG_VER_SHIFT_MAX_ENTRIES : Nat := 16
def IOAPIC_REG_VER_MASK_MAX_ENTRIES : Nat := 0x00FF0000

/-- C's `~` on a `uint32_t` operand: 32-bit one's complement. -/
def not32 (m : Nat) : Nat := 0xFFFFFFFF ^^^ m

inductive IOAPICErr where
  | InvalidRegisterContents
deriving DecidableEq

/-- The module-scope state of ioapic.c: the globals `id`, `version`,
`max_entries`, plus the number of outstanding `ioremap_nocache` mappings
(`ioapic_addr` holds the single mapped window; `mappings` counts
acquisitions minus releases so that leak/balance is provable). -/
structure IOAPICState where
  id : Nat
  version : Nat
  max_entries : Nat
  mappings : Nat
deriving DecidableEq

/-- `ioapic_read` from ioapic.c: write `reg` to the 1-byte index register
at offset 0, read the 32-bit data register at offset 0x10.  The parameter
is `const uint8_t reg`, so the index latched in hardware is `reg % 256`;
`dev` maps the latched index to the 32-bit data value (`% 2^32`). -/
def ioapic_read (dev : Nat → Nat) (reg : Nat) : Nat := dev (reg % 256) % 2^32

/-- `ioapic_setup` from ioapic.c: map the register window
(`ioremap_nocache`, counted in `mappings`), read the ID and VER
registers, fail on any reserved bit (`reg_id & ~IOAPIC_REG_ID_MASK_ID`,
`reg_ver & ~IOAPIC_REG_VER_MASK_VER & ~IOAPIC_REG_VER_MASK_MAX_ENTRIES`),
otherwise extract the `id` / `version` / `max_entries` fields.  Note the
error paths return without releasing the mapping, exactly as the C code
does. -/
def ioapic_setup (dev : Nat → Nat) (st : IOAPICState) :
    Except IOAPICErr Unit × IOAPICState :=
  let st1 : IOAPICState := { st with mappings := st.mappings + 1 }
  let reg_id := ioapic_read dev IOAPIC_REG_ID
  let reg_ver := ioapic_read dev IOAPIC_REG_VER
  if reg_id &&& not32 IOAPIC_REG_ID_MASK_ID ≠ 0 then
    (.error .InvalidRegisterContents, st1)
  else if reg_ver &&& not32 IOAPIC_REG_VER_MASK_VER
                 &&& not32 IOAPIC_REG_VER_MASK_MAX_ENTRIES ≠ 0 then
    (.error .InvalidRegisterContents, st1)
  else
    (.ok (), { st1 with
      id := (reg_id &&& IOAPIC_REG_ID_MASK_ID) >>> IOAPIC_REG_ID_SHIFT_ID,
      version := (reg_ver &&& IOAPIC_REG_VER_MASK_VER) >>> IOAPIC_REG_VER_SHIFT_VER,
      max_entries := (reg_ver &&& IOAPIC_REG_VER_MASK_MAX_ENTRIES)
                       >>> IOAPIC_REG_VER_SHIFT_MAX_ENTRIES })

/-- One Redirection Table entry as printed by `ioapic_show`. -/
structure RedirEntry where
  pin : Nat
  lo : Nat
  hi : Nat
deriving DecidableEq

/-- The Redirection Table walk of `ioapic_show`:
`for (pin = 0; pin <= max_entries; pin++)` reading
`ioapic_read(addr, 0x10 + 2*pin)` and `ioapic_read(addr, 0x11 + 2*pin)`.
(`pin` is an `int` and `max_entries ≤ 0xFF` after validation, so the loop
runs exactly `max_entries + 1` times with no overflow.) -/
def ioapic_show_entries (dev : Nat → Nat) (max_entries : Nat) : List RedirEntry :=
  (List.range (max_entries + 1)).map fun pin =>
    ⟨pin, ioapic_read dev (0x10 + 2 * pin), ioapic_read dev (0x11 + 2 * pin)⟩

/-- `ioapic_show` from ioapic.c: render the entries using the global
`max_entries`, then `iounmap(ioapic_addr)` (mapping count decremented). -/
def ioapic_show (dev : Nat → Nat) (st : IOAPICState) :
    List RedirEntry × IOAPICState :=
  (ioapic_show_entries dev st.max_entries, { st with mappings := st.mappings - 1 })

/-- `ioapic0_open` from ioapic.c: calls `ioapic_setup(ioapic0_base)` and
then unconditionally `single_open(file, ioapic_show, NULL)` — the return
value of `ioapic_setup` is discarded, so `ioapic_show` renders (and
unmaps) even when validation failed. -/
def ioapic0_open (dev : Nat → Nat) (st : IOAPICState) :
    List RedirEntry × IOAPICState :=
  let p := ioapic_setup dev st
  ioapic_show dev p.2

/-- Modelled from the claim's words, not from the source: each entry of
the redirection-table walk is obtained from logical registers
`0x10 + 2*pin` and `0x11 + 2*pin` (with no 8-bit truncation of the
register index).  This is the spec-side definition compared against
`ioapic_show_entries`. -/
def ioapicSpecRedirEntries (dev : Nat → Nat) (max_entries : Nat) : List RedirEntry :=
  (List.range (max_entries + 1)).map fun pin =>
    ⟨pin, dev (0x10 + 2 * pin) % 2^32, dev (0x11 + 2 * pin) % 2^32⟩

/-! ## idt.c -/

/-- The compile-time layout toggle of idt.c: `wide` is `CONFIG_X86_64`
(16-byte gate descriptors), `narrow` the 32-bit build (8-byte). -/
inductive IDTLayout where
  | wide
  | narrow
deriving DecidableEq

/-- `IDT_ENTRY_BYTES` from `idt_setup` (the `#ifdef CONFIG_X86_64`). -/
def IDT_ENTRY_BYTES : IDTLayout → Nat
  | .wide => 16
  | .narrow => 8

/-- `num_idt_entries = (dtr.size + 1) / IDT_ENTRY_BYTES` from `idt_setup`;
`size` is the `dtr.size` field (a `uint16_t`, the IDT limit). -/
def num_idt_entries (layout : IDTLayout) (size : Nat) : Nat :=
  (size + 1) / IDT_ENTRY_BYTES layout

/-- Modelled from the spec's words: `entry_count = (size_minus_one + 1) / stride`. -/
def specEntryCount (size_minus_one stride : Nat) : Nat := (size_minus_one + 1) / stride

/-- Bits 0-15 of the low raw word of a 64-bit gate descriptor: the
`offset_low` bitfield of `struct gate_struct64`. -/
def gate64_offset_low (raw_low : Nat) : Nat := raw_low % 2^16

/-- Bits 48-63 of the low raw word: the `offset_middle` bitfield. -/
def gate64_offset_middle (raw_low : Nat) : Nat := raw_low / 2^48 % 2^16

/-- Bits 0-31 of the high raw word: the `offset_high` bitfield. -/
def gate64_offset_high (raw_high : Nat) : Nat := raw_high % 2^32

/-- The handler offset as displayed by `idt_show` on the 64-bit layout:
`"%08X%04X%04X"` of `offset_high`, `offset_middle`, `offset_low` — i.e.
the numeric concatenation high * 2^32 + middle * 2^16 + low (each field
prints in exactly its fixed width since middle and low are < 2^16 and
high < 2^32). -/
def idt_displayed_offset64 (raw_low raw_high : Nat) : Nat :=
  gate64_offset_high raw_high * 2^32 + gate64_offset_middle raw_low * 2^16
    + gate64_offset_low raw_low

/-- The handler offset as displayed by `idt_show` on the 32-bit layout:
`(idt[entry].b & 0xFFFF0000) + idt[entry].limit0`, where `limit0` is
bits 0-15 of the `a` word. -/
def idt_displayed_offset32 (a b : Nat) : Nat :=
  (b &&& 0xFFFF0000) + a % 2^16

/-- Encoder for the documented 64-bit gate layout: the low raw word packs
`offset_low` (bits 0-15 of the handler offset), the segment selector,
16 flag bits (ist/zero/type/dpl/p) and `offset_middle` (bits 16-31 of the
offset) in bits 0-15 / 16-31 / 32-47 / 48-63. -/
def mkGate64_raw_low (off seg flags : Nat) : Nat :=
  off % 2^16 + seg % 2^16 * 2^16 + flags % 2^16 * 2^32 + off / 2^16 % 2^16 * 2^48

/-- Encoder for the high raw word: `offset_high` (bits 32-63 of the
handler offset) in bits 0-31, reserved word in bits 32-63. -/
def mkGate64_raw_high (off zero1 : Nat) : Nat :=
  off / 2^32 % 2^32 + zero1 % 2^32 * 2^32

/-- Encoder for the documented 32-bit gate layout, `a` word: offset low
half in bits 0-15, segment selector in bits 16-31. -/
def mkGate32_a (off seg : Nat) : Nat := off % 2^16 + seg % 2^16 * 2^16

/-- Encoder for the 32-bit gate `b` word: flag bits in bits 0-15, offset
high half in bits 16-31. -/
def mkGate32_b (off flags : Nat) : Nat := flags % 2^16 + off / 2^16 % 2^16 * 2^16

/-! ## Concrete fixtures used by witnesses and counterexamples -/

/-- All-zero memory: no "_MP_" signature anywhere in the scan window. -/
def memZero : Nat → Nat := fun _ => 0

/-- A memory with a valid MP Floating Pointer structure at 0xF0000
(first scan candidate), pointing at a valid "PCMP" table at 0x1000 whose
4-byte size field holds 0x12345678 (so the 16-bit base-table size is
0x5678). -/
def memW : Nat → Nat := fun p =>
  if p = 0xF0000 then 0x5F else if p = 0xF0001 then 0x4D
  else if p = 0xF0002 then 0x50 else if p = 0xF0003 then 0x5F
  else if p = 0xF0005 then 0x10
  else if p = 0x1000 then 0x50 else if p = 0x1001 then 0x43
  else if p = 0x1002 then 0x4D else if p = 0x1003 then 0x50
  else if p = 0x1004 then 0x78 else if p = 0x1005 then 0x56
  else if p = 0x1006 then 0x34 else if p = 0x1007 then 0x12
  else 0

/-- Like `memW`, but the first byte of the second table is corrupted, so
its signature no longer reads "PCMP". -/
def memW2 : Nat → Nat := fun p => if p = 0x1000 then 0x51 else memW p

/-- A base configuration table image: a processor entry (type 0) at
offset 44, default entries (type 1) everywhere after it. -/
def memC1 : Nat → Nat := fun p => if p = 44 then 0 else 1

/-- A device whose ID register reads 1: bit 0 is outside the ID field
(bits 24-27), so validation must fail. -/
def devBad : Nat → Nat := fun r => if r = 0 then 1 else 0

/-- A device that passes validation with `max_entries = 120` (VER register
0x00780000: bits inside 16-23 only) and otherwise answers every latched
index with the index itself, so reads through a truncated index are
distinguishable from reads at the untruncated register number. -/
def devC : Nat → Nat := fun r => if r = 1 then 0x780000 else r

/-- The initial module state: zeroed globals, no mapping held. -/
def st0 : IOAPICState := ⟨0, 0, 0, 0⟩

/-! ## Helper lemmas -/

theorem ne_zero_iff_exists_testBit (x : Nat) : x ≠ 0 ↔ ∃ i, x.testBit i = true := by
  constructor
  · intro h
    by_contra hc
    push_neg at hc
    apply h
    apply Nat.eq_of_testBit_eq
    intro i
    rw [Nat.zero_testBit]
    simpa using hc i
  · rintro ⟨i, hi⟩ h0
    subst h0
    simp at hi

theorem and_ne_zero_iff (x m : Nat) :
    x &&& m ≠ 0 ↔ ∃ i, x.testBit i = true ∧ m.testBit i = true := by
  rw [ne_zero_iff_exists_testBit]
  simp [Nat.testBit_and]

theorem and_mask_testBit_iff (x m : Nat) (hx : x < 2^32) (P : Nat → Prop)
    (hm : ∀ i, m.testBit i = true ↔ (i < 32 ∧ P i)) :
    x &&& m ≠ 0 ↔ ∃ i, x.testBit i = true ∧ P i := by
  rw [and_ne_zero_iff]
  constructor
  · rintro ⟨i, hxi, hmi⟩
    exact ⟨i, hxi, ((hm i).mp hmi).2⟩
  · rintro ⟨i, hxi, hPi⟩
    refine ⟨i, hxi, (hm i).mpr ⟨?_, hPi⟩⟩
    have h1 : 2^i ≤ x := Nat.testBit_implies_ge hxi
    exact (Nat.pow_lt_pow_iff_right (by norm_num)).mp (lt_of_le_of_lt h1 hx)

theorem maskID_testBit : ∀ i, (0xF0FFFFFF : Nat).testBit i = true ↔ (i < 32 ∧ ¬(24 ≤ i ∧ i ≤ 27)) := by
  intro i
  rcases Nat.lt_or_ge i 32 with h32 | h32
  · interval_cases i <;> decide
  · have hf : (0xF0FFFFFF : Nat).testBit i = false :=
      Nat.testBit_lt_two_pow (lt_of_lt_of_le (by norm_num) (Nat.pow_le_pow_right (by norm_num) h32))
    rw [hf]
    simp
    omega

theorem maskVER_testBit : ∀ i, (0xFF00FF00 : Nat).testBit i = true ↔ (i < 32 ∧ ¬(i ≤ 7 ∨ (16 ≤ i ∧ i ≤ 23))) := by
  intro i
  rcases Nat.lt_or_ge i 32 with h32 | h32
  · interval_cases i <;> decide
  · have hf : (0xFF00FF00 : Nat).testBit i = false :=
      Nat.testBit_lt_two_pow (lt_of_lt_of_le (by norm_num) (Nat.pow_le_pow_right (by norm_num) h32))
    rw [hf]
    simp
    omega

theorem and_high16 (b : Nat) (hb : b < 2^32) : b &&& 0xFFFF0000 = b / 2^16 % 2^16 * 2^16 := by
  have hmask : ∀ j, (0xFFFF0000 : Nat).testBit j = (decide (16 ≤ j) && decide (j < 32)) := by
    intro j
    rcases Nat.lt_or_ge j 32 with h32 | h32
    · interval_cases j <;> decide
    · have hf : (0xFFFF0000 : Nat).testBit j = false :=
        Nat.testBit_lt_two_pow (lt_of_lt_of_le (by norm_num) (Nat.pow_le_pow_right (by norm_num) h32))
      have hn : ¬ j < 32 := by omega
      simp [hf, hn]
  apply Nat.eq_of_testBit_eq
  intro i
  rw [Nat.testBit_and, hmask i]
  have hRw : b / 2^16 % 2^16 * 2^16 = ((b >>> 16) % 2^16) <<< 16 := by
    rw [Nat.shiftLeft_eq, Nat.shiftRight_eq_div_pow]
  rw [hRw, Nat.testBit_shiftLeft, Nat.testBit_mod_two_pow, Nat.testBit_shiftRight]
  rcases Nat.lt_or_ge i 16 with h16 | h16
  · have hn : ¬ 16 ≤ i := by omega
    simp [hn]
  · rcases Nat.lt_or_ge i 32 with h32 | h32
    · have e3 : i - 16 < 16 := by omega
      have e4 : 16 + (i - 16) = i := by omega
      simp [h16, h32, e3, e4]
    · have e1 : ¬ i < 32 := by omega
      have e2 : ¬ i - 16 < 16 := by omega
      have hbi : b.testBit i = false :=
        Nat.testBit_lt_two_pow (lt_of_lt_of_le hb (Nat.pow_le_pow_right (by norm_num) h32))
      simp [e1, e2, hbi]

/-! ## C7: interrupt-vector table entry count -/

/-- C7: for every interrupt-vector table located via the control-register
strategy, `entry_count` equals `(size_minus_one + 1) / stride`, where the
stride is 16 bytes under the 64-bit layout and 8 bytes under the 32-bit
layout. -/
theorem idt_entry_count_spec :
    ∀ layout size, num_idt_entries layout size = specEntryCount size (IDT_ENTRY_BYTES layout) ∧
      IDT_ENTRY_BYTES IDTLayout.wide = 16 ∧ IDT_ENTRY_BYTES IDTLayout.narrow = 8 :=
  fun _ _ => ⟨rfl, rfl, rfl⟩

/-! ## C8: gate-descriptor offset reconstruction -/

/-- C8: for every gate-descriptor entry under either layout width, the
displayed handler offset is the single integer obtained by concatenating
the entry's split offset fields in the documented bit order (high,
middle, low on the 64-bit layout; the two 16-bit halves on the 32-bit
layout), i.e. the display inverts the documented field split. -/
theorem gate_offset_reconstruction :
    (∀ off seg flags zero1, off < 2^64 →
        idt_displayed_offset64 (mkGate64_raw_low off seg flags)
          (mkGate64_raw_high off zero1) = off) ∧
    (∀ off seg flags, off < 2^32 →
        idt_displayed_offset32 (mkGate32_a off seg) (mkGate32_b off flags) = off) := by
  constructor
  · intro off seg flags zero1 h
    unfold idt_displayed_offset64 gate64_offset_high gate64_offset_middle gate64_offset_low
      mkGate64_raw_low mkGate64_raw_high
    have e1 : (off % 2^16 + seg % 2^16 * 2^16 + flags % 2^16 * 2^32 + off / 2^16 % 2^16 * 2^48)
        / 2^48 % 2^16 = off / 2^16 % 2^16 := by clear h; omega
    have e2 : (off % 2^16 + seg % 2^16 * 2^16 + flags % 2^16 * 2^32 + off / 2^16 % 2^16 * 2^48)
        % 2^16 = off % 2^16 := by clear h; omega
    have e3 : (off / 2^32 % 2^32 + zero1 % 2^32 * 2^32) % 2^32 = off / 2^32 := by omega
    rw [e1, e2, e3]
    omega
  · intro off seg flags h
    unfold idt_displayed_offset32 mkGate32_a mkGate32_b
    have hb : flags % 2^16 + off / 2^16 % 2^16 * 2^16 < 2^32 := by omega
    rw [and_high16 _ hb]
    omega

/-- Witness for C8: concrete 64-bit and 32-bit gate descriptors round-trip. -/
theorem gate_offset_reconstruction_witness :
    idt_displayed_offset64 (mkGate64_raw_low 0xFFFF800012345678 0x10 0x8E00)
        (mkGate64_raw_high 0xFFFF800012345678 0) = 0xFFFF800012345678 ∧
    idt_displayed_offset32 (mkGate32_a 0xC0123456 0x60) (mkGate32_b 0xC0123456 0x8E00)
        = 0xC0123456 :=
  ⟨gate_offset_reconstruction.1 0xFFFF800012345678 0x10 0x8E00 0 (by norm_num),
   gate_offset_reconstruction.2 0xC0123456 0x60 0x8E00 (by norm_num)⟩

/-! ## C2: I/O-controller reserved-bit validation -/

/-- C2: for every I/O-controller setup, validation fails with
InvalidRegisterContents if and only if the identification register value
has some bit set outside bits 24-27 or the version register value has
some bit set outside bits 0-7 and 16-23; a value with only bits inside
those fields set succeeds (the result is then `.ok`). -/
theorem ioapic_setup_reserved_bits (dev : Nat → Nat) (st : IOAPICState) :
    ((ioapic_setup dev st).1 = .error .InvalidRegisterContents ↔
       (∃ i, (ioapic_read dev IOAPIC_REG_ID).testBit i = true ∧ ¬(24 ≤ i ∧ i ≤ 27)) ∨
       (∃ i, (ioapic_read dev IOAPIC_REG_VER).testBit i = true ∧ ¬(i ≤ 7 ∨ (16 ≤ i ∧ i ≤ 23)))) ∧
    ((ioapic_setup dev st).1 = .error .InvalidRegisterContents ∨
       (ioapic_setup dev st).1 = .ok ()) := by
  have hid : ioapic_read dev IOAPIC_REG_ID < 2^32 := Nat.mod_lt _ (by norm_num)
  have hver : ioapic_read dev IOAPIC_REG_VER < 2^32 := Nat.mod_lt _ (by norm_num)
  have hm1 : not32 IOAPIC_REG_ID_MASK_ID = 0xF0FFFFFF := by decide
  have hm2 : not32 IOAPIC_REG_VER_MASK_VER &&& not32 IOAPIC_REG_VER_MASK_MAX_ENTRIES
      = 0xFF00FF00 := by decide
  have key : (ioapic_setup dev st).1 = .error .InvalidRegisterContents ↔
      (ioapic_read dev IOAPIC_REG_ID &&& 0xF0FFFFFF ≠ 0 ∨
       ioapic_read dev IOAPIC_REG_VER &&& 0xFF00FF00 ≠ 0) := by
    simp only [ioapic_setup]
    rw [hm1, Nat.and_assoc, hm2]
    split_ifs with h1 h2
    · simp [h1]
    · simp [h2]
    · simp [h1, h2]
  constructor
  · rw [key]
    rw [and_mask_testBit_iff _ _ hid (fun i => ¬(24 ≤ i ∧ i ≤ 27)) maskID_testBit]
    rw [and_mask_testBit_iff _ _ hver (fun i => ¬(i ≤ 7 ∨ (16 ≤ i ∧ i ≤ 23))) maskVER_testBit]
  · simp only [ioapic_setup]
    split_ifs with h1 h2 <;> simp

/-- Witness for C2: a device whose ID register reads 1 (bit 0 set, outside
bits 24-27) fails validation; a device with bits only inside the defined
fields succeeds. -/
theorem ioapic_setup_reserved_bits_witness :
    (ioapic_setup devBad st0).1 = Except.error IOAPICErr.InvalidRegisterContents ∧
    (ioapic_setup devC st0).1 = Except.ok () :=
  ⟨((ioapic_setup_reserved_bits devBad st0).1).mpr
      (Or.inl ⟨0, by decide, by decide⟩),
   by decide⟩

/-! ## C3: errors terminal for the open (code bug on the I/O-controller path) -/

/-- C3 (code bug evaluation): for the I/O-controller open, a validation
failure is NOT terminal.  `ioapic0_open` discards `ioapic_setup`'s return
value, so with a device whose ID register reads 1 (validation fails with
InvalidRegisterContents) the open still renders a non-empty report.
The mp path (`mp_init`) does propagate the error as the claim states. -/
theorem ioapic0_open_renders_despite_error :
    (ioapic_setup devBad st0).1 = Except.error IOAPICErr.InvalidRegisterContents ∧
    (ioapic0_open devBad st0).1 ≠ [] :=
  ⟨by decide, by decide⟩

/-! ## C4: the mapped register window is released by the end of every open -/

/-- C4: for every I/O-controller open, the mapping acquired by
`ioapic_setup` is released by the end of that open on every path; in
particular on the validation-failure path the setup itself leaves the
mapping held (count `+ 1`) and the open still ends with the original
count, because `ioapic_show` (which performs the `iounmap`) runs
unconditionally. -/
theorem ioapic_open_releases_mapping (dev : Nat → Nat) (st : IOAPICState) :
    (ioapic0_open dev st).2.mappings = st.mappings ∧
    ((ioapic_setup dev st).1 = .error .InvalidRegisterContents →
      (ioapic_setup dev st).2.mappings = st.mappings + 1 ∧
      (ioapic0_open dev st).2.mappings = st.mappings) := by
  have hsetup : (ioapic_setup dev st).2.mappings = st.mappings + 1 := by
    simp only [ioapic_setup]
    split_ifs <;> simp
  have hmain : (ioapic0_open dev st).2.mappings = st.mappings := by
    simp only [ioapic0_open, ioapic_show]
    rw [hsetup]
    omega
  exact ⟨hmain, fun _ => ⟨hsetup, hmain⟩⟩

/-- Witness for C4: on the concrete failing device the setup leaves the
mapping held and the open releases it. -/
theorem ioapic_open_releases_mapping_witness :
    (ioapic_setup devBad st0).1 = Except.error IOAPICErr.InvalidRegisterContents ∧
    (ioapic_setup devBad st0).2.mappings = st0.mappings + 1 ∧
    (ioapic0_open devBad st0).2.mappings = st0.mappings := by
  have h : (ioapic_setup devBad st0).1 = Except.error IOAPICErr.InvalidRegisterContents := by
    decide
  exact ⟨h, (ioapic_open_releases_mapping devBad st0).2 h⟩

/-! ## C9: redirection-table walk -/

/-- C9 (counterexample to the claim as stated): `devC` passes validation
with `max_entries = 120`, yet the walk differs from the spec-side walk
that reads logical registers `0x10 + 2*pin` without 8-bit truncation:
at pin 120 the register index `0x10 + 240 = 0x100` wraps to 0 in the
`uint8_t` parameter of `ioapic_read`. -/
theorem ioapic_redir_claim_counterexample :
    (ioapic_setup devC st0).1 = Except.ok () ∧
    (ioapic_setup devC st0).2.max_entries = 120 ∧
    ioapic_show_entries devC 120 ≠ ioapicSpecRedirEntries devC 120 :=
  ⟨by decide, by decide, by decide⟩

/-- C9 (amended): for every validated redirection table, the walker
produces exactly `max_entries + 1` entries, pins strictly increasing
0..max_entries with no gaps or repeats, and each entry is obtained by the
two indexed-register reads of logical registers `(0x10 + 2*pin) % 256`
and `(0x11 + 2*pin) % 256` (the index register is one byte wide; the
modulus is the identity whenever `max_entries ≤ 119`). -/
theorem ioapic_redir_walk_amended (dev : Nat → Nat) (st : IOAPICState)
    (h : (ioapic_setup dev st).1 = .ok ()) :
    (ioapic_show_entries dev (ioapic_setup dev st).2.max_entries).length
        = (ioapic_setup dev st).2.max_entries + 1 ∧
    (∀ i hi,
        (ioapic_show_entries dev (ioapic_setup dev st).2.max_entries).get ⟨i, hi⟩
          = ⟨i, dev ((0x10 + 2 * i) % 256) % 2^32, dev ((0x11 + 2 * i) % 256) % 2^32⟩) ∧
    (∀ i j hi hj, i < j →
        ((ioapic_show_entries dev (ioapic_setup dev st).2.max_entries).get ⟨i, hi⟩).pin
          < ((ioapic_show_entries dev (ioapic_setup dev st).2.max_entries).get ⟨j, hj⟩).pin) := by
  have hget : ∀ m i (hi : i < (ioapic_show_entries dev m).length),
      (ioapic_show_entries dev m).get ⟨i, hi⟩
        = ⟨i, dev ((0x10 + 2 * i) % 256) % 2^32, dev ((0x11 + 2 * i) % 256) % 2^32⟩ := by
    intro m i hi
    simp [ioapic_show_entries, ioapic_read, List.get_eq_getElem]
  refine ⟨by simp [ioapic_show_entries], fun i hi => hget _ i hi, fun i j hi hj hij => ?_⟩
  rw [hget _ i hi, hget _ j hj]
  exact hij

/-- Witness for C9's amended theorem at the validated device `devC`. -/
theorem ioapic_redir_walk_amended_witness :
    (ioapic_setup devC st0).1 = Except.ok () ∧
    (ioapic_show_entries devC (ioapic_setup devC st0).2.max_entries).length
      = (ioapic_setup devC st0).2.max_entries + 1 := by
  have h : (ioapic_setup devC st0).1 = Except.ok () := by decide
  exact ⟨h, (ioapic_redir_walk_amended devC st0 h).1⟩

/-! ## C5 and C6: mp_setup locator -/

theorem mpScanAux_zero (mem : Nat → Nat) (a : Nat) : mpScanAux mem 0 a = none := rfl

theorem mpScanAux_succ (mem : Nat → Nat) (n a : Nat) :
    mpScanAux mem (n+1) a =
      if read32 mem a = MPFP_SIGNATURE then some a else mpScanAux mem n (a + 16) := rfl

theorem mpScanAux_none_iff (mem : Nat → Nat) :
    ∀ n start, mpScanAux mem n start = none ↔
      ∀ i, i < n → read32 mem (start + 16 * i) ≠ MPFP_SIGNATURE := by
  intro n
  induction n with
  | zero =>
    intro start
    simp [mpScanAux_zero]
  | succ n ih =>
    intro start
    rw [mpScanAux_succ]
    by_cases hs : read32 mem start = MPFP_SIGNATURE
    · rw [if_pos hs]
      constructor
      · intro hsome
        cases hsome
      · intro hall
        exact absurd (by simpa using hs) (hall 0 (by omega))
    · rw [if_neg hs, ih (start + 16)]
      constructor
      · intro hnone i hi
        match i with
        | 0 => simpa using hs
        | j+1 =>
          have hj := hnone j (by omega)
          have e : start + 16 + 16 * j = start + 16 * (j+1) := by ring
          rw [e] at hj
          exact hj
      · intro hall j hj
        have hh := hall (j+1) (by omega)
        have e : start + 16 * (j+1) = start + 16 + 16 * j := by ring
        rw [e] at hh
        exact hh

theorem mpScanAux_some (mem : Nat → Nat) :
    ∀ n start a, mpScanAux mem n start = some a →
      ∃ i, i < n ∧ a = start + 16 * i ∧ read32 mem a = MPFP_SIGNATURE ∧
        ∀ j, j < i → read32 mem (start + 16 * j) ≠ MPFP_SIGNATURE := by
  intro n
  induction n with
  | zero =>
    intro start a h
    rw [mpScanAux_zero] at h
    cases h
  | succ n ih =>
    intro start a h
    rw [mpScanAux_succ] at h
    by_cases hs : read32 mem start = MPFP_SIGNATURE
    · rw [if_pos hs] at h
      have ha : a = start := (Option.some.inj h).symm
      subst ha
      exact ⟨0, by omega, by omega, hs, fun j hj => absurd hj (by omega)⟩
    · rw [if_neg hs] at h
      obtain ⟨i, hin, ha, hsig, hmin⟩ := ih (start + 16) a h
      refine ⟨i + 1, by omega, by rw [ha]; ring, hsig, ?_⟩
      intro j hj
      match j with
      | 0 => simpa using hs
      | k+1 =>
        have hk := hmin k (by omega)
        have e : start + 16 + 16 * k = start + 16 * (k+1) := by ring
        rw [e] at hk
        exact hk

/-- C5: the signature-scan Locator examines candidates `0xF0000 + 16*i`
for `i < 4096` (exactly the 16-byte-aligned addresses of the window
0xF0000..0xFFFFF), stops at the first candidate whose first 4 bytes are
"_MP_" (returning exactly that offset), and `mp_setup` fails with
NotFound exactly when no candidate in the window matches. -/
theorem mp_scan_spec (mem : Nat → Nat) :
    (∀ a, mpScan mem = some a →
        (∃ i, i < 4096 ∧ a = 0xF0000 + 16 * i) ∧
        read32 mem a = MPFP_SIGNATURE ∧
        (∀ b, (∃ j, j < 4096 ∧ b = 0xF0000 + 16 * j) → b < a →
            read32 mem b ≠ MPFP_SIGNATURE)) ∧
    (mpScan mem = none ↔ ∀ i, i < 4096 → read32 mem (0xF0000 + 16 * i) ≠ MPFP_SIGNATURE) ∧
    (mp_setup mem = .error .NotFound ↔ mpScan mem = none) ∧
    (∀ b, (0xF0000 ≤ b ∧ b ≤ 0xFFFFF ∧ b % 16 = 0) ↔ ∃ j, j < 4096 ∧ b = 0xF0000 + 16 * j) ∧
    (∀ a, read32 mem a = MPFP_SIGNATURE ↔
        (byteAt mem a = 0x5F ∧ byteAt mem (a+1) = 0x4D ∧
         byteAt mem (a+2) = 0x50 ∧ byteAt mem (a+3) = 0x5F)) := by
  refine ⟨?_, ?_, ?_, ?_, ?_⟩
  · intro a h
    obtain ⟨i, hin, ha, hsig, hmin⟩ := mpScanAux_some mem 4096 0xF0000 a h
    refine ⟨⟨i, hin, ha⟩, hsig, ?_⟩
    rintro b ⟨j, hj, rfl⟩ hba
    have hji : j < i := by omega
    exact hmin j hji
  · exact mpScanAux_none_iff mem 4096 0xF0000
  · simp only [mp_setup]
    cases hm : mpScan mem with
    | none => simp
    | some fp =>
      simp only []
      by_cases hsig : read32 mem (read32 mem (fp + MPFP_SIGNATURE_BYTES)) ≠ MPCT_SIGNATURE
      · simp [hsig]
      · simp [hsig]
  · intro b
    constructor
    · rintro ⟨h1, h2, h3⟩
      refine ⟨(b - 0xF0000) / 16, by omega, by omega⟩
    · rintro ⟨j, hj, rfl⟩
      omega
  · intro a
    have h0 : byteAt mem a < 256 := Nat.mod_lt _ (by norm_num)
    have h1 : byteAt mem (a+1) < 256 := Nat.mod_lt _ (by norm_num)
    have h2 : byteAt mem (a+2) < 256 := Nat.mod_lt _ (by norm_num)
    have h3 : byteAt mem (a+3) < 256 := Nat.mod_lt _ (by norm_num)
    simp only [read32, MPFP_SIGNATURE]
    omega

/-- Witness for C5: `memW` has the signature at the first candidate, and
the theorem yields the match there; on the all-zero memory the scan finds
no candidate and `mp_setup` fails with NotFound. -/
theorem mp_scan_spec_witness :
    read32 memW 0xF0000 = MPFP_SIGNATURE ∧
    mpScan memZero = none ∧
    mp_setup memZero = Except.error MPErr.NotFound := by
  have h1 := ((mp_scan_spec memW).1 0xF0000 (by decide)).2.1
  have hz : ∀ i, i < 4096 → read32 memZero (0xF0000 + 16 * i) ≠ MPFP_SIGNATURE := by
    intro i _ h
    simp [read32, byteAt, memZero, MPFP_SIGNATURE] at h
  have h2 := (mp_scan_spec memZero).2.1.mpr hz
  exact ⟨h1, h2, (mp_scan_spec memZero).2.2.1.mpr h2⟩

theorem read32_mod_2_16 (mem : Nat → Nat) (a : Nat) : read32 mem a % 2^16 = read16 mem a := by
  have h0 : byteAt mem a < 256 := Nat.mod_lt _ (by norm_num)
  have h1 : byteAt mem (a+1) < 256 := Nat.mod_lt _ (by norm_num)
  simp only [read32, read16]
  omega

/-- C6: after a successful first-stage signature match at `a`, `mp_setup`
follows the 4-byte pointer at offset 4 of the matched structure, fails
with InvalidSignature exactly when the pointed-to table's first 4 bytes
are not "PCMP", and on success records a base-table size equal to the
2-byte little-endian field at offset 4 of the second table (the code's
4-byte load truncated to the `uint16_t` global). -/
theorem mp_setup_second_stage (mem : Nat → Nat) (a : Nat) (h : mpScan mem = some a) :
    (mp_setup mem ≠ .error .NotFound) ∧
    (read32 mem (read32 mem (a + MPFP_SIGNATURE_BYTES)) ≠ MPCT_SIGNATURE ↔
       mp_setup mem = .error .InvalidSignature) ∧
    (read32 mem (read32 mem (a + MPFP_SIGNATURE_BYTES)) = MPCT_SIGNATURE →
       mp_setup mem = .ok ⟨a, read32 mem (a + MPFP_SIGNATURE_BYTES),
         read16 mem (read32 mem (a + MPFP_SIGNATURE_BYTES) + MPCT_SIGNATURE_BYTES)⟩) ∧
    (∀ c, read32 mem c = MPCT_SIGNATURE ↔
        (byteAt mem c = 0x50 ∧ byteAt mem (c+1) = 0x43 ∧
         byteAt mem (c+2) = 0x4D ∧ byteAt mem (c+3) = 0x50)) := by
  refine ⟨?_, ?_, ?_, ?_⟩
  · simp only [mp_setup, h]
    by_cases hsig : read32 mem (read32 mem (a + MPFP_SIGNATURE_BYTES)) ≠ MPCT_SIGNATURE
    · simp [hsig]
    · simp [hsig]
  · simp only [mp_setup, h]
    by_cases hsig : read32 mem (read32 mem (a + MPFP_SIGNATURE_BYTES)) ≠ MPCT_SIGNATURE
    · simp [hsig]
    · simp [hsig]
  · intro hok
    simp only [mp_setup, h]
    rw [if_neg (by simp [hok])]
    rw [read32_mod_2_16]
  · intro c
    have h0 : byteAt mem c < 256 := Nat.mod_lt _ (by norm_num)
    have h1 : byteAt mem (c+1) < 256 := Nat.mod_lt _ (by norm_num)
    have h2 : byteAt mem (c+2) < 256 := Nat.mod_lt _ (by norm_num)
    have h3 : byteAt mem (c+3) < 256 := Nat.mod_lt _ (by norm_num)
    simp only [read32, MPCT_SIGNATURE]
    omega

/-- Witness for C6: on `memW` the second stage succeeds and records size
0x5678 (the low 2 bytes of the 4-byte field 0x12345678); on `memW2`,
identical except for a corrupted first byte of the second table, it fails
with InvalidSignature. -/
theorem mp_setup_second_stage_witness :
    mp_setup memW = Except.ok ⟨0xF0000, 0x1000, 0x5678⟩ ∧
    mp_setup memW2 = Except.error MPErr.InvalidSignature := by
  have hW := mp_setup_second_stage memW 0xF0000 (by decide)
  have hW2 := mp_setup_second_stage memW2 0xF0000 (by decide)
  constructor
  · exact (hW.2.2.1 (by decide)).trans (by decide)
  · exact hW2.2.1.mp (by decide)

/-! ## C1 and C10: the Base MP Configuration Table walk -/

theorem mpWalkAux_zero (mem : Nat → Nat) (size pos : Nat) :
    mpWalkAux mem size 0 pos = [] := rfl

theorem mpWalkAux_succ (mem : Nat → Nat) (size fuel pos : Nat) :
    mpWalkAux mem size (fuel+1) pos =
      if pos < size then
        ⟨pos, mpEntryBytes mem pos (mpStrideOf (byteAt mem pos))⟩ ::
          mpWalkAux mem size fuel (pos + mpStrideOf (byteAt mem pos))
      else [] := rfl

theorem mpStrideOf_pos (b : Nat) : 0 < mpStrideOf b := by
  unfold mpStrideOf MPCT_ENTRY_BYTES_PROCESSOR MPCT_ENTRY_BYTES_DEFAULT
  split <;> omega

theorem mpWalkAux_props (mem : Nat → Nat) (size : Nat) :
    ∀ fuel pos, size ≤ pos + fuel →
      (∀ e, e ∈ mpWalkAux mem size fuel pos → pos ≤ e.pos ∧ e.pos < size) ∧
      ((mpWalkAux mem size fuel pos).head?.map MPEntry.pos
          = if pos < size then some pos else none) ∧
      List.Chain' (fun a b => b.pos = a.pos + mpStrideOf (byteAt mem a.pos))
        (mpWalkAux mem size fuel pos) ∧
      (∀ e, e ∈ mpWalkAux mem size fuel pos →
          e.bytes = mpEntryBytes mem e.pos (mpStrideOf (byteAt mem e.pos))) ∧
      (∀ e, (mpWalkAux mem size fuel pos).getLast? = some e →
          size ≤ e.pos + mpStrideOf (byteAt mem e.pos)) := by
  intro fuel
  induction fuel with
  | zero =>
    intro pos hle
    rw [mpWalkAux_zero]
    have hns : ¬ pos < size := by omega
    exact ⟨by simp, by simp [hns], by simp, by simp, by simp⟩
  | succ fuel ih =>
    intro pos hle
    rw [mpWalkAux_succ]
    by_cases hps : pos < size
    · rw [if_pos hps]
      have hstride : 0 < mpStrideOf (byteAt mem pos) := mpStrideOf_pos _
      obtain ⟨ih1, ih2, ih3, ih4, ih5⟩ :=
        ih (pos + mpStrideOf (byteAt mem pos)) (by omega)
      refine ⟨?_, ?_, ?_, ?_, ?_⟩
      · intro e he
        rcases List.mem_cons.mp he with rfl | he2
        · exact ⟨Nat.le_refl _, hps⟩
        · have hr := ih1 e he2
          exact ⟨by omega, hr.2⟩
      · simp [hps]
      · rw [List.chain'_cons']
        refine ⟨?_, ih3⟩
        intro y hy
        rcases htail : (mpWalkAux mem size fuel (pos + mpStrideOf (byteAt mem pos))).head?
            with _ | z
        · rw [htail] at hy
          simp at hy
        · rw [htail] at hy
          simp at hy
          subst hy
          rw [htail] at ih2
          by_cases hlt : pos + mpStrideOf (byteAt mem pos) < size
          · rw [if_pos hlt] at ih2
            simp at ih2
            simpa using ih2
          · rw [if_neg hlt] at ih2
            simp at ih2
      · intro e he
        rcases List.mem_cons.mp he with rfl | he2
        · rfl
        · exact ih4 e he2
      · intro e hlast
        rcases htail : mpWalkAux mem size fuel (pos + mpStrideOf (byteAt mem pos))
            with _ | ⟨b, t⟩
        · rw [htail] at hlast
          simp at hlast
          rw [htail] at ih2
          by_cases hlt : pos + mpStrideOf (byteAt mem pos) < size
          · rw [if_pos hlt] at ih2
            simp at ih2
          · subst hlast
            simp
            omega
        · rw [htail] at hlast
          rw [List.getLast?_cons_cons] at hlast
          exact ih5 e (by rw [htail]; exact hlast)
    · rw [if_neg hps]
      exact ⟨by simp, by simp [hps], by simp, by simp, by simp⟩

/-- C1: the base-table walker starts at offset 44 (the byte immediately
after the header), repeatedly reads the discriminator byte at the current
position, takes the entry to occupy 20 bytes if it equals 0 and 8 bytes
otherwise, emits exactly the entry's raw bytes, advances by that stride
(each entry's start is the previous start plus the previous stride), and
stops at the declared base-table size: every decoded entry starts inside
`[44, size)`, no entry at or past the boundary is decoded, and the last
entry's end reaches or passes the boundary (the walk does not stop
early). -/
theorem mp_base_walk_props (mem : Nat → Nat) (size : Nat) :
    (∀ e, e ∈ mp_show_base_entries mem size → MPCT_HEADER_BYTES ≤ e.pos ∧ e.pos < size) ∧
    ((mp_show_base_entries mem size).head?.map MPEntry.pos
        = if MPCT_HEADER_BYTES < size then some MPCT_HEADER_BYTES else none) ∧
    List.Chain' (fun a b => b.pos = a.pos + mpStrideOf (byteAt mem a.pos))
      (mp_show_base_entries mem size) ∧
    (∀ e, e ∈ mp_show_base_entries mem size →
        e.bytes = mpEntryBytes mem e.pos (mpStrideOf (byteAt mem e.pos)) ∧
        e.bytes.length = (if byteAt mem e.pos = 0 then 20 else 8)) ∧
    (∀ e, (mp_show_base_entries mem size).getLast? = some e →
        size ≤ e.pos + mpStrideOf (byteAt mem e.pos)) := by
  obtain ⟨h1, h2, h3, h4, h5⟩ := mpWalkAux_props mem size size MPCT_HEADER_BYTES (by omega)
  refine ⟨h1, h2, h3, ?_, h5⟩
  intro e he
  have hb := h4 e he
  refine ⟨hb, ?_⟩
  rw [hb]
  simp [mpEntryBytes, mpStrideOf, MPCT_ENTRY_TYPE_PROCESSOR, MPCT_ENTRY_BYTES_PROCESSOR,
    MPCT_ENTRY_BYTES_DEFAULT]

/-- Witness for C1: on a table of size 72 whose discriminator at offset 44
is 0 (processor entry, 20 bytes) and at offset 64 is 1 (default entry,
8 bytes), the first entry starts at 44 and both entries lie inside the
table. -/
theorem mp_base_walk_props_witness :
    (⟨44, mpEntryBytes memC1 44 20⟩ : MPEntry) ∈ mp_show_base_entries memC1 72 ∧
    (MPCT_HEADER_BYTES ≤ 44 ∧ 44 < 72) ∧
    (mp_show_base_entries memC1 72).head?.map MPEntry.pos = some 44 := by
  have hmem : (⟨44, mpEntryBytes memC1 44 20⟩ : MPEntry) ∈ mp_show_base_entries memC1 72 := by
    decide
  refine ⟨hmem, (mp_base_walk_props memC1 72).1 _ hmem, ?_⟩
  have h2 := (mp_base_walk_props memC1 72).2.1
  rw [h2]
  decide

/-- C10: for every multiprocessor table whose declared base-table size is
at most the 44-byte header size, the base-table walk emits zero entries,
and it reads no byte of the table at all: the result is the same (empty)
list for any two memories. -/
theorem mp_walk_empty_of_small_size (mem mem2 : Nat → Nat) (size : Nat)
    (h : size ≤ MPCT_HEADER_BYTES) :
    mp_show_base_entries mem size = [] ∧
    mp_show_base_entries mem2 size = mp_show_base_entries mem size := by
  have hgen : ∀ m : Nat → Nat, mp_show_base_entries m size = [] := by
    intro m
    unfold mp_show_base_entries
    unfold MPCT_HEADER_BYTES at h ⊢
    cases size with
    | zero => rfl
    | succ n =>
      rw [mpWalkAux_succ, if_neg (by omega)]
  exact ⟨hgen mem, (hgen mem2).trans (hgen mem).symm⟩

/-- Witness for C10 at the boundary size 44: no entries, independent of
the memory contents. -/
theorem mp_walk_empty_of_small_size_witness :
    (44 : Nat) ≤ MPCT_HEADER_BYTES ∧
    (mp_show_base_entries memC1 44 = [] ∧
     mp_show_base_entries memZero 44 = mp_show_base_entries memC1 44) :=
  ⟨by decide, mp_walk_empty_of_small_size memC1 memZero 44 (by decide)⟩
